import Mathlib

/-!
Verification development for the blsforme repository.

We shallowly embed the Rust sources (superblock readers, block-device
command-line synthesis, VFAT file engine, kernel discovery, boot
environment resolution, systemd-boot loader installation and the
efivars Boot Loader Interface decoder) as executable Lean definitions,
and prove the specification claims about them.

Conventions:
* machine bytes are `Nat` values (< 256 where it matters, with explicit
  little-endian recomposition);
* fallible Rust code (`Result`) becomes `Except`;
* Rust panics (out-of-bounds indexing, `expect`) are modelled with
  `Option`: a `none` result marks a panic;
* Rust `String`/`str` values are modelled as `List Char` (`Str`), so
  that trimming and whitespace facts are provable by list induction.
-/

set_option maxRecDepth 10000

namespace Blsforme

/-- Rust strings, modelled as lists of characters. -/
abbrev Str := List Char

/-- Coerce a Lean string literal to the `Str` model. -/
def str (s : String) : Str := s.toList

/-- Little-endian recomposition of a byte list into a natural number. -/
def leNat (bs : List Nat) : Nat := bs.foldr (fun b acc => b + 256 * acc) 0

/-- `bs[off .. off+n)`: the `n`-byte field at byte offset `off`. -/
def bytesAt (bs : List Nat) (off n : Nat) : List Nat := (bs.drop off).take n

namespace Superblock

/-- `superblock::Kind` (crates/superblock/src/lib.rs). -/
inductive Kind where
  | Btrfs
  | Ext4
  | LUKS2
  | F2FS
  | XFS
deriving DecidableEq, Repr

/-- `superblock::Error` (crates/superblock/src/lib.rs).  The `IO` payload is
dropped; all I/O failures collapse to `IO`. -/
inductive Error where
  | UnknownSuperblock
  | UnsupportedFeature
  | Utf8Decoding
  | Utf16Decoding
  | InvalidMagic
  | IOErr
deriving DecidableEq, Repr

/-- A seekable in-memory byte source (`Cursor<&[u8]>`): the full byte
buffer together with the current read position. -/
structure Reader where
  data : List Nat
  pos : Nat
deriving DecidableEq, Repr

/-- `Seek::rewind`: reset the position to the start.  (On an in-memory
cursor this cannot fail.) -/
def Reader.rewind (r : Reader) : Reader := { r with pos := 0 }

/-- `io::copy(&mut reader.by_ref().take(n), &mut io::sink())`: consume up
to `n` bytes, silently stopping at end of data. -/
def Reader.skip (r : Reader) (n : Nat) : Reader :=
  { r with pos := min (r.pos + n) r.data.length }

/-- `Read::read_exact` for `n` bytes: errors when fewer than `n` bytes
remain. -/
def Reader.read_exact (r : Reader) (n : Nat) :
    Except Error (List Nat × Reader) :=
  if r.pos + n ≤ r.data.length then
    .ok ((r.data.drop r.pos).take n, { r with pos := r.pos + n })
  else
    .error .IOErr

/-- Partial BTRFS superblock (crates/superblock/src/btrfs.rs), first 104
bytes of the on-disk layout. -/
structure Btrfs where
  csum : List Nat
  fsid : List Nat
  bytenr : Nat
  flags : Nat
  magic : Nat
  generation : Nat
  root : Nat
  chunk_root : Nat
  log_root : Nat
deriving DecidableEq, Repr

/-- Superblock offset for btrfs (`START_POSITION`). -/
def btrfsStart : Nat := 0x10000

/-- `"_BHRfS_M"` as a little-endian u64 (`MAGIC` in btrfs.rs). -/
def btrfsMagic : Nat := 0x4D5F53665248425F

/-- `btrfs::from_reader`: skip to 0x10000, read the 104-byte struct,
check the magic. -/
def Btrfs.from_reader (r : Reader) : Except Error (Btrfs × Reader) := do
  let r := r.skip btrfsStart
  let (bytes, r') ← r.read_exact 104
  let data : Btrfs :=
    { csum := bytesAt bytes 0 32
      fsid := bytesAt bytes 32 16
      bytenr := leNat (bytesAt bytes 48 8)
      flags := leNat (bytesAt bytes 56 8)
      magic := leNat (bytesAt bytes 64 8)
      generation := leNat (bytesAt bytes 72 8)
      root := leNat (bytesAt bytes 80 8)
      chunk_root := leNat (bytesAt bytes 88 8)
      log_root := leNat (bytesAt bytes 96 8) }
  if data.magic ≠ btrfsMagic then
    .error .InvalidMagic
  else
    .ok (data, r')

/-- Partial F2FS superblock (crates/superblock/src/f2fs.rs); the fields
the code consumes, taken from the 3072-byte packed struct. -/
structure F2FS where
  magic : Nat
  uuid : List Nat
  volume_name : List Nat
deriving DecidableEq, Repr

/-- `MAGIC` in f2fs.rs. -/
def f2fsMagic : Nat := 0xF2F52010

/-- `START_POSITION` in f2fs.rs. -/
def f2fsStart : Nat := 1024

/-- Byte size of the packed `F2FS` struct. -/
def f2fsSize : Nat := 3072

/-- `f2fs::from_reader`: skip 1024 bytes, read the packed struct, check
the magic (a little-endian u32 at struct offset 0).  The `uuid` field
lives at struct offset 108, the UTF-16 volume name at offset 124. -/
def F2FS.from_reader (r : Reader) : Except Error (F2FS × Reader) := do
  let r := r.skip f2fsStart
  let (bytes, r') ← r.read_exact f2fsSize
  let data : F2FS :=
    { magic := leNat (bytesAt bytes 0 4)
      uuid := bytesAt bytes 108 16
      volume_name := bytesAt bytes 124 1024 }
  if data.magic ≠ f2fsMagic then
    .error .InvalidMagic
  else
    .ok (data, r')

/-- Partial LUKS2 header (crates/superblock/src/luks2.rs); the fields the
code consumes from the 4096-byte packed struct. -/
structure Luks2 where
  magic : List Nat
  label : List Nat
  uuid : List Nat
deriving DecidableEq, Repr

/-- `MAGIC1`: `LUKS\xba\xbe`. -/
def luks2Magic1 : List Nat := [0x4C, 0x55, 0x4B, 0x53, 0xba, 0xbe]

/-- `MAGIC2`: `SKUL\xba\xbe`. -/
def luks2Magic2 : List Nat := [0x53, 0x4B, 0x55, 0x4C, 0xba, 0xbe]

/-- Byte size of the packed `Luks2` struct. -/
def luks2Size : Nat := 4096

/-- `luks2::from_reader`: read the 4096-byte header at offset 0 and accept
either magic byte sequence.  The label is at struct offset 24 (48 bytes),
the ASCII UUID at offset 168 (40 bytes). -/
def Luks2.from_reader (r : Reader) : Except Error (Luks2 × Reader) := do
  let (bytes, r') ← r.read_exact luks2Size
  let data : Luks2 :=
    { magic := bytesAt bytes 0 6
      label := bytesAt bytes 24 48
      uuid := bytesAt bytes 168 40 }
  if data.magic = luks2Magic1 ∨ data.magic = luks2Magic2 then
    .ok (data, r')
  else
    .error .InvalidMagic

/-- Modelled from the spec: `crates/superblock/src/ext4.rs` is declared
(`pub mod ext4`) but its source is not under src/.  Per spec §4.A the
ext4 reader validates the magic `0xEF53` at offset 1024 and returns
`InvalidMagic` on mismatch. -/
structure Ext4 where
  magic : Nat
deriving DecidableEq, Repr

/-- ext4 magic per spec §4.A. -/
def ext4Magic : Nat := 0xEF53

/-- Modelled from the spec: the ext4 reader skips to offset 1024 and
checks the little-endian u16 magic `0xEF53` there. -/
def Ext4.from_reader (r : Reader) : Except Error (Ext4 × Reader) := do
  let r := r.skip 1024
  let (bytes, r') ← r.read_exact 2
  let data : Ext4 := { magic := leNat (bytesAt bytes 0 2) }
  if data.magic ≠ ext4Magic then
    .error .InvalidMagic
  else
    .ok (data, r')

/-- Modelled from the spec: `crates/superblock/src/xfs.rs` is declared
(`pub mod xfs`) but its source is not under src/.  Per spec §4.A the XFS
reader validates the magic `"XFSB"` at offset 0. -/
structure XFS where
  magicnum : List Nat
deriving DecidableEq, Repr

/-- `"XFSB"` as bytes. -/
def xfsMagic : List Nat := [0x58, 0x46, 0x53, 0x42]

/-- Modelled from the spec: the XFS reader checks the 4-byte magic
`"XFSB"` at offset 0. -/
def XFS.from_reader (r : Reader) : Except Error (XFS × Reader) := do
  let (bytes, r') ← r.read_exact 4
  let data : XFS := { magicnum := bytesAt bytes 0 4 }
  if data.magicnum ≠ xfsMagic then
    .error .InvalidMagic
  else
    .ok (data, r')

/-- `Box<dyn Superblock>`: one of the five decoded superblock structs. -/
inductive AnySuperblock where
  | btrfs (sb : Btrfs)
  | ext4 (sb : Ext4)
  | luks2 (sb : Luks2)
  | f2fs (sb : F2FS)
  | xfs (sb : XFS)
deriving DecidableEq, Repr

/-- `Superblock::kind` of the decoded superblock. -/
def AnySuperblock.kind : AnySuperblock → Kind
  | .btrfs _ => .Btrfs
  | .ext4 _ => .Ext4
  | .luks2 _ => .LUKS2
  | .f2fs _ => .F2FS
  | .xfs _ => .XFS

/-- `superblock::for_reader` (crates/superblock/src/lib.rs): rewind, try
ext4; rewind, try btrfs; rewind, try f2fs; rewind, try xfs; rewind, try
luks2; otherwise `UnknownSuperblock`. -/
def for_reader (r : Reader) : Except Error AnySuperblock :=
  let r := r.rewind
  match Ext4.from_reader r with
  | .ok (block, _) => .ok (.ext4 block)
  | .error _ =>
    let r := r.rewind
    match Btrfs.from_reader r with
    | .ok (block, _) => .ok (.btrfs block)
    | .error _ =>
      let r := r.rewind
      match F2FS.from_reader r with
      | .ok (block, _) => .ok (.f2fs block)
      | .error _ =>
        let r := r.rewind
        match XFS.from_reader r with
        | .ok (block, _) => .ok (.xfs block)
        | .error _ =>
          let r := r.rewind
          match Luks2.from_reader r with
          | .ok (block, _) => .ok (.luks2 block)
          | .error _ => .error .UnknownSuperblock

/-- The five detection attempts in the spec's order, each run against the
rewound byte source. -/
def attempts (r : Reader) : List (Except Error AnySuperblock) :=
  [(Ext4.from_reader r.rewind).map (fun p => AnySuperblock.ext4 p.1),
   (Btrfs.from_reader r.rewind).map (fun p => AnySuperblock.btrfs p.1),
   (F2FS.from_reader r.rewind).map (fun p => AnySuperblock.f2fs p.1),
   (XFS.from_reader r.rewind).map (fun p => AnySuperblock.xfs p.1),
   (Luks2.from_reader r.rewind).map (fun p => AnySuperblock.luks2 p.1)]

/-- First successful attempt, `UnknownSuperblock` when all fail. -/
def firstOk : List (Except Error AnySuperblock) → Except Error AnySuperblock
  | [] => .error .UnknownSuperblock
  | .ok sb :: _ => .ok sb
  | .error _ :: rest => firstOk rest

/-- The dispatcher as worded by claim C2: rewind before each attempt, try
Ext4, Btrfs, F2FS, XFS, LUKS2 in that order, return the first successful
decode, and fail only when every reader has failed. -/
def for_reader_spec (r : Reader) : Except Error AnySuperblock :=
  firstOk (attempts r)

end Superblock

namespace Topology

/-- Rust `char::is_whitespace`, restricted to the ASCII whitespace
characters that can occur in the synthesised command lines. -/
def isWs (c : Char) : Bool := c = ' ' || c = '\t' || c = '\n' || c = '\r'

/-- `str::trim_start`. -/
def trimStart (l : Str) : Str := l.dropWhile isWs

/-- `str::trim_end`. -/
def trimEnd (l : Str) : Str := (l.reverse.dropWhile isWs).reverse

/-- `str::trim`. -/
def rustTrim (l : Str) : Str := trimEnd (trimStart l)

/-- Modelled from the spec: the `mounts` module of the topology crate
(`crate::disk::mounts`, declared in crates/topology/src/disk/mod.rs) is
not under src/.  Per spec §4.B mount options are exposed as `Flag(name)`
or `Option(key, value)`. -/
inductive MountOption where
  | flag (name : Str)
  | option (key : Str) (value : Str)
deriving DecidableEq, Repr

/-- Modelled from the spec: one parsed line of the
`device mountpoint filesystem opts …` mount table (spec §4.B). -/
structure MountEntry where
  device : Str
  mountpoint : Str
  filesystem : Str
  options : List MountOption
deriving DecidableEq, Repr

/-- The parts of `probe::Probe` that `BlockDevice::cmd_line` consumes:
the parsed mount table (plus the canonicalised vfs roots). -/
structure Probe where
  sysfs : Str
  devfs : Str
  procfs : Str
  mounts : List MountEntry
deriving DecidableEq, Repr

/-- `probe.mounts.iter().map(|m| (m.mountpoint, m)).collect::<HashMap>()`
followed by `get`: on duplicate keys the later entry wins. -/
def lookupMount (mounts : List MountEntry) (mp : Str) : Option MountEntry :=
  (mounts.filter (fun m => m.mountpoint = mp)).getLast?

/-- The `mount_options` HashMap of `cmd_line`: `Option(k, v)` entries
keyed by `k`, later entries winning, then `get k`. -/
def optionValue (opts : List MountOption) (k : Str) : Option Str :=
  (opts.filterMap (fun o =>
    match o with
    | .option k' v => if k' = k then some v else none
    | .flag _ => none)).getLast?

/-- `device::BlockDevice` (crates/topology/src/disk/device.rs). -/
inductive BlockDevice where
  | mk (kind : Option Superblock.Kind) (mountpoint : Option Str) (path : Str)
      (children : List BlockDevice) (uuid : Option Str) (guid : Option Str)
      (aux : Bool)

/-- Field accessor: `kind`. -/
def BlockDevice.kind : BlockDevice → Option Superblock.Kind
  | .mk k _ _ _ _ _ _ => k

/-- Field accessor: `mountpoint`. -/
def BlockDevice.mountpoint : BlockDevice → Option Str
  | .mk _ m _ _ _ _ _ => m

/-- Field accessor: `path`. -/
def BlockDevice.path : BlockDevice → Str
  | .mk _ _ p _ _ _ _ => p

/-- Field accessor: `children`. -/
def BlockDevice.children : BlockDevice → List BlockDevice
  | .mk _ _ _ c _ _ _ => c

/-- Field accessor: `uuid`. -/
def BlockDevice.uuid : BlockDevice → Option Str
  | .mk _ _ _ _ u _ _ => u

/-- Field accessor: `guid`. -/
def BlockDevice.guid : BlockDevice → Option Str
  | .mk _ _ _ _ _ g _ => g

/-- Field accessor: `aux`. -/
def BlockDevice.aux : BlockDevice → Bool
  | .mk _ _ _ _ _ _ a => a

/-- The `local` fragment computed inside `BlockDevice::cmd_line`
(device.rs lines 102-130).  `none` models a panic of one of the two
`expect` calls (btrfs / luks2 without a UUID). -/
def localFragment (probe : Probe) (d : BlockDevice) : Option Str :=
  let mount := d.mountpoint.bind (lookupMount probe.mounts)
  let mountOption : Str → Option Str := fun k =>
    mount.bind (fun m => optionValue m.options k)
  match d.kind with
  | some .Btrfs =>
    match d.uuid with
    | none => none
    | some uuid =>
      match mountOption (str "subvol") with
      | some subvol =>
        some (str "root=UUID=" ++ uuid ++ str " rootfsflags=subvol=" ++ subvol)
      | none => some (str "root=UUID=" ++ uuid)
  | some .LUKS2 =>
    match d.uuid with
    | none => none
    | some uuid => some (str "rd.luks.uuid=" ++ uuid)
  | some _ =>
    match d.guid with
    | some guid => some (str "root=PARTUUID=" ++ guid)
    | none =>
      match d.uuid with
      | some uuid => some (str "root=UUID=" ++ uuid)
      | none => some []
  | none =>
    if !d.aux then some (str "root=" ++ d.path) else some []

mutual

/-- `BlockDevice::cmd_line` (device.rs lines 79-133): children first, the
local fragment per superblock kind, then
`format!("{} {}", local, children).trim()`.  A `none` result models a
panic (an `expect` failing somewhere in the tree). -/
def cmd_line (probe : Probe) : BlockDevice → Option Str
  | .mk kind mountpoint path children uuid guid aux => do
    let childStrs ← cmd_line_children probe children
    let childrenJoined := List.intercalate (str " ") childStrs
    let localStr ← localFragment probe (.mk kind mountpoint path children uuid guid aux)
    some (rustTrim (localStr ++ str " " ++ childrenJoined))

/-- `self.children.iter().map(|c| c.cmd_line()).collect::<Vec<_>>()`,
with a panic anywhere short-circuiting to `none`. -/
def cmd_line_children (probe : Probe) : List BlockDevice → Option (List Str)
  | [] => some []
  | c :: cs => do
    let s ← cmd_line probe c
    let rest ← cmd_line_children probe cs
    some (s :: rest)

end

/-- `disk::Error` (crates/topology/src/disk/mod.rs). -/
inductive TopoError where
  | IOErr
  | StdLib
  | UnknownMount (p : Str)
  | InvalidDevice (p : Str)
  | Superblock (e : Superblock.Error)
deriving DecidableEq, Repr

/-- The observable behaviour of the `Box<dyn Superblock>` that
`probe.get_device_superblock` hands to `BlockDevice::new`: its `kind()`
and the result of `uuid()`. -/
structure SbHandle where
  kind : Superblock.Kind
  uuid : Except Superblock.Error Str
deriving Repr

/-- `BlockDevice::new` (device.rs lines 44-76).  `sbResult` is the
outcome of `probe.get_device_superblock(path)`; a decoding failure is
discarded (`if let Ok`) and yields the kind-less device, while a `uuid()`
failure is propagated with `?`. -/
def BlockDevice.new (sbResult : Except TopoError SbHandle) (path : Str)
    (mount : Option Str) (aux : Bool) : Except TopoError BlockDevice :=
  match sbResult with
  | .ok sb =>
    match sb.uuid with
    | .ok u => .ok (.mk (some sb.kind) mount path [] (some u) none aux)
    | .error e => .error (.Superblock e)
  | .error _ => .ok (.mk none mount path [] none none aux)

/-- `Probe::get_rootfs_device` (probe.rs lines 132-164), with the I/O
steps abstracted: `device` is the canonicalised device resolved from the
mountpoint `path`, `guid` the GPT partition-GUID scan result, `chain`
the backing-device chain, and `sbOf` the per-device superblock probe.
The custodial list is `device :: chain`; its last element becomes the
`aux` tip, the rest its children (`flat_map` silently dropping devices
whose construction fails), and the GUID is attached to the tip. -/
def get_rootfs_device (sbOf : Str → Except TopoError SbHandle)
    (guid : Option Str) (device : Str) (chain : List Str) (path : Str) :
    Except TopoError BlockDevice :=
  let custodials := device :: chain
  let tip := custodials.getLast (by simp [custodials])
  let rest := custodials.dropLast
  match BlockDevice.new (sbOf tip) tip none true with
  | .error e => .error e
  | .ok block =>
    let children := rest.filterMap (fun c =>
      if c = device then
        (BlockDevice.new (sbOf c) c (some path) false).toOption
      else
        (BlockDevice.new (sbOf c) c none true).toOption)
    match block with
    | .mk kind mountpoint bpath _ uuid _ aux =>
      .ok (.mk kind mountpoint bpath children uuid guid aux)

mutual

/-- The implicit invariant of claim C10: every node with a decoded
superblock kind also carries a UUID. -/
def goodDev : BlockDevice → Bool
  | .mk kind _ _ children uuid _ _ =>
    (!kind.isSome || uuid.isSome) && goodDevList children

/-- `goodDev` on every member of a child list. -/
def goodDevList : List BlockDevice → Bool
  | [] => true
  | c :: cs => goodDev c && goodDevList cs

end

/-- The local fragment as worded by claim C1: btrfs `root=UUID=<uuid>`
with ` rootfsflags=subvol=<S>` exactly when the mount table entry for the
node's mountpoint carries a `subvol=<S>` option; luks2
`rd.luks.uuid=<uuid>`; other known kinds `root=PARTUUID=<gpt_guid>` when
the GUID is present, else `root=UUID=<uuid>` when the UUID is present,
else empty; unknown kind `root=<device-path>` when aux is false, else
empty. -/
def specLocalFragment (probe : Probe) (d : BlockDevice) : Str :=
  let subvol :=
    (d.mountpoint.bind (lookupMount probe.mounts)).bind
      (fun m => optionValue m.options (str "subvol"))
  match d.kind with
  | some .Btrfs =>
    str "root=UUID=" ++ d.uuid.getD [] ++
      (match subvol with
       | some s => str " rootfsflags=subvol=" ++ s
       | none => [])
  | some .LUKS2 => str "rd.luks.uuid=" ++ d.uuid.getD []
  | some _ =>
    match d.guid with
    | some g => str "root=PARTUUID=" ++ g
    | none =>
      match d.uuid with
      | some u => str "root=UUID=" ++ u
      | none => []
  | none => if d.aux then [] else str "root=" ++ d.path

mutual

/-- The command line as worded by claim C1: the local fragment follows
the per-kind rules of `specLocalFragment`, and the children's command
lines are concatenated after it in child order. -/
def specCmdLine (probe : Probe) : BlockDevice → Str
  | .mk kind mountpoint path children uuid guid aux =>
    rustTrim (specLocalFragment probe (.mk kind mountpoint path children uuid guid aux)
      ++ str " " ++ List.intercalate (str " ") (specCmdLineList probe children))

/-- The children's command lines in child order. -/
def specCmdLineList (probe : Probe) : List BlockDevice → List Str
  | [] => []
  | c :: cs => specCmdLine probe c :: specCmdLineList probe cs

end

/-- Two consecutive whitespace characters occur somewhere in the list. -/
def hasDoubleWs : Str → Bool
  | a :: b :: rest => (isWs a && isWs b) || hasDoubleWs (b :: rest)
  | _ => false

/-- A probe with an empty mount table, for concrete examples. -/
def emptyProbe : Probe := { sysfs := [], devfs := [], procfs := [], mounts := [] }

/-- Example probe: a btrfs root mounted with a `subvol=/@` option. -/
def btrfsProbe : Probe :=
  { sysfs := [], devfs := [], procfs := []
    mounts := [{ device := str "/dev/sda2", mountpoint := str "/",
                 filesystem := str "btrfs"
                 options := [.flag (str "rw"), .option (str "subvol") (str "/@")] }] }

/-- Example device tree: a btrfs filesystem atop a LUKS2 container. -/
def btrfsDev : BlockDevice :=
  .mk (some .Btrfs) (some (str "/")) (str "/dev/mapper/root")
    [.mk (some .LUKS2) none (str "/dev/sda2") [] (some (str "aaaa-bbbb")) none true]
    (some (str "2a78a4da")) none false

/-- A child contributing an empty fragment (unknown kind, aux). -/
def c8auxChild : BlockDevice := .mk none none (str "x") [] none none true

/-- A child contributing `root=y`. -/
def c8realChild : BlockDevice := .mk none none (str "y") [] none none false

/-- A node whose first child's fragment is empty: the join then yields
two consecutive spaces. -/
def c8Dev : BlockDevice :=
  .mk none none (str "dev") [c8auxChild, c8realChild] none none false

end Topology

namespace FileUtils

/-- File kinds as distinguished by `Metadata::file_type`. -/
inductive FType where
  | file
  | dir
  | symlink
deriving DecidableEq, Repr

/-- A filesystem object: its type and content bytes (empty for
directories). -/
structure FileData where
  ftype : FType
  content : List Nat
deriving DecidableEq, Repr

/-- A filesystem snapshot: paths to objects. -/
abbrev FS := Str → Option FileData

/-- Update one path of a filesystem. -/
def fsSet (fs : FS) (p : Str) (v : Option FileData) : FS :=
  fun q => if q = p then v else fs q

/-- `files_identical` (blsforme/src/file_utils.rs lines 41-59): open both
files (an absent file errors), compare size and file type first, and only
when both match compare the 32-byte cryptographic digests, modelled by an
arbitrary digest function `hash`. -/
def files_identical (hash : List Nat → List Nat) (fs : FS) (a b : Str) :
    Except Unit Bool :=
  match fs a, fs b with
  | some fa, some fb =>
    if fa.content.length ≠ fb.content.length ∨ fa.ftype ≠ fb.ftype then
      .ok false
    else
      .ok (hash fa.content = hash fb.content)
  | _, _ => .error ()

/-- `changed_files` (file_utils.rs lines 69-85): keep exactly the pairs
for which `files_identical` does not answer `Ok(true)`. -/
def changed_files (hash : List Nat → List Nat) (fs : FS)
    (files : List (Str × Str)) : List (Str × Str) :=
  files.filter (fun p =>
    match files_identical hash fs p.1 p.2 with
    | .ok true => false
    | _ => true)

/-- The claim's characterisation of an omitted pair: both files exist,
sizes and file types agree, and the digests agree. -/
def identicalSpec (hash : List Nat → List Nat) (fs : FS) (a b : Str) : Bool :=
  match fs a, fs b with
  | some fa, some fb =>
    decide (fa.content.length = fb.content.length) &&
    decide (fa.ftype = fb.ftype) &&
    decide (hash fa.content = hash fb.content)
  | _, _ => false

/-- The file name of a path: everything after the last `/`. -/
def pathFileName (p : Str) : Str :=
  (p.reverse.takeWhile (fun c => c ≠ '/')).reverse

/-- `Path::file_stem` and `Path::extension` of a file name, per the Rust
standard library: no embedded `.`, or a leading `.` with no other `.`,
means no extension; otherwise split at the final `.`. -/
def rustFileStemExt (name : Str) : Str × Option Str :=
  let rev := name.reverse
  let extRev := rev.takeWhile (fun c => c ≠ '.')
  match rev.dropWhile (fun c => c ≠ '.') with
  | [] => (name, none)
  | _ :: restRev =>
    if restRev.isEmpty then (name, none)
    else (restRev.reverse, some extRev.reverse)

/-- `Path::with_extension`: replace (not append to) the extension of the
file name; a non-empty new extension is attached with a `.`. -/
def with_extension (p : Str) (ext : Str) : Str :=
  let name := pathFileName p
  let dir := p.take (p.length - name.length)
  let stem := (rustFileStemExt name).1
  dir ++ stem ++ (if ext.isEmpty then [] else '.' :: ext)

/-- The staging path of `copy_atomic_vfat`:
`dest.with_extension(".TmpWrite")`. -/
def tmpWritePath (dest : Str) : Str := with_extension dest (str ".TmpWrite")

/-- The parent directory of a path: everything before the last `/`
(empty for a bare file name, as in Rust for relative paths). -/
def pathParent (p : Str) : Str :=
  (p.reverse.dropWhile (fun c => c ≠ '/')).reverse.dropLast

/-- Filesystem-visible events of `copy_atomic_vfat`, in order. -/
inductive FsOp where
  | create_dir_all (p : Str)
  | open_trunc (p : Str)
  | copy (source dest : Str)
  | syncfs
  | remove_file (p : Str)
  | rename (source dest : Str)
deriving DecidableEq, Repr

/-- `copy_atomic_vfat` (file_utils.rs lines 92-138): stage into
`dest.with_extension(".TmpWrite")`, ensure the parent directory, open the
temp with truncate/create/write-only, copy the source bytes, `syncfs`,
unlink a pre-existing destination (plus `syncfs`), rename the temp onto
the destination and `syncfs` once more.  Returns the final filesystem and
the ordered event trace. -/
def copy_atomic_vfat (fs : FS) (source dest : Str) :
    Except Unit (FS × List FsOp) := do
  let dest_temp := tmpWritePath dest
  let dest_exists := (fs dest).isSome
  let dir_leading := pathParent dest
  let (fs, ops0) :=
    if (fs dir_leading).isSome then (fs, [])
    else (fsSet fs dir_leading (some ⟨.dir, []⟩), [FsOp.create_dir_all dir_leading])
  -- File::options().truncate(true).write(true).create(true).open(&dest_temp)
  let fs := fsSet fs dest_temp (some ⟨.file, []⟩)
  -- File::open(source)
  let src ← match fs source with
    | some f => pure f
    | none => throw ()
  -- io::copy + syncfs
  let fs := fsSet fs dest_temp (some ⟨.file, src.content⟩)
  let (fs, ops1) :=
    if dest_exists then
      (fsSet fs dest none, [FsOp.remove_file dest, FsOp.syncfs])
    else (fs, [])
  -- fs::rename(dest_temp, dest) + syncfs
  let staged := fs dest_temp
  let fs := fsSet (fsSet fs dest staged) dest_temp none
  pure (fs,
    ops0 ++ [FsOp.open_trunc dest_temp, FsOp.copy source dest_temp, FsOp.syncfs]
      ++ ops1 ++ [FsOp.rename dest_temp dest, FsOp.syncfs])

/-- The event sequence claimed for `copy_atomic_vfat` (with the staging
path the code actually uses): ensure the parent directory exists; open
the temp truncating; copy; `syncfs`; if the destination existed, unlink
it and `syncfs` again; rename the temp onto the destination; `syncfs`
once more. -/
def specVfatOps (fs : FS) (source dest : Str) : List FsOp :=
  (if (fs (pathParent dest)).isSome then [] else [.create_dir_all (pathParent dest)])
    ++ [.open_trunc (tmpWritePath dest), .copy source (tmpWritePath dest), .syncfs]
    ++ (if (fs dest).isSome then [.remove_file dest, .syncfs] else [])
    ++ [.rename (tmpWritePath dest) dest, .syncfs]

/-- A small filesystem for the C3 example: a source file and an existing
boot directory. -/
def c3fs : FS := fun p =>
  if p = str "src" then some ⟨.file, [1, 2]⟩
  else if p = str "EFI/boot" then some ⟨.dir, []⟩
  else none

end FileUtils

namespace Kern

open FileUtils (pathFileName pathParent)

/-- `AuxilliaryKind` (blsforme/src/kernel.rs). -/
inductive AuxilliaryKind where
  | Cmdline
  | InitRD
  | SystemMap
  | Config
  | BootJSON
deriving DecidableEq, Repr

/-- `AuxilliaryFile` (kernel.rs). -/
structure AuxilliaryFile where
  path : Str
  kind : AuxilliaryKind
deriving DecidableEq, Repr

/-- `Kernel` (kernel.rs). -/
structure Kernel where
  version : Str
  image : Str
  initrd : List AuxilliaryFile
  extras : List AuxilliaryFile
  variant : Option Str
deriving DecidableEq, Repr

/-- `Schema` (kernel.rs): legacy (clr-boot-manager style, with a vendor
prefix) or the modern blsforme schema. -/
inductive Schema where
  | Legacy (vendor : Str)
  | Blsforme
deriving DecidableEq, Repr

/-- Rust `str::to_lowercase`, restricted to ASCII case mapping. -/
def lowerStr (s : Str) : Str := s.map Char.toLower

/-- The case-insensitive sort key used by
`sort_by_key(|i| i.path.display().to_string().to_lowercase())`. -/
def auxKey (a : AuxilliaryFile) : Str := lowerStr a.path

/-- The per-kernel auxiliary-file sort (stable, by lowercased path). -/
def sortAux (l : List AuxilliaryFile) : List AuxilliaryFile :=
  List.insertionSort (fun x y => auxKey x ≤ auxKey y) l

/-- `BTreeMap::insert` on a key-sorted association list. -/
def btreeInsert (m : List (Str × Kernel)) (k : Str) (v : Kernel) :
    List (Str × Kernel) :=
  match m with
  | [] => [(k, v)]
  | (k', v') :: rest =>
    if k < k' then (k, v) :: (k', v') :: rest
    else if k = k' then (k, v) :: rest
    else (k', v') :: btreeInsert rest k v

/-- `str::split_once(c)`: split at the first occurrence of `c`. -/
def splitOnce (c : Char) (s : Str) : Option (Str × Str) :=
  match s.dropWhile (fun x => x ≠ c) with
  | [] => none
  | _ :: rest => some (s.takeWhile (fun x => x ≠ c), rest)

/-- One `for cand in candidates` step of `legacy_kernels` (kernel.rs
lines 116-137): take the file name, `split_at(namespace.len() + 1)`
(a panic — `none` — when the name is shorter), `assert!` that the split
ends with a dot (a panic when a candidate merely shares the namespace
prefix), then split variant and version and require a `-` in the
version before inserting into the `BTreeMap`. -/
def legacyStep (vendor : Str) (m : List (Str × Kernel)) (cand : Str) :
    Option (List (Str × Kernel)) :=
  let file_name := pathFileName cand
  if vendor.length + 1 ≤ file_name.length then
    let left := file_name.take (vendor.length + 1)
    let right := file_name.drop (vendor.length + 1)
    if left.getLast? = some '.' then
      match splitOnce '.' right with
      | some (variant, full_version) =>
        if full_version.contains '-' then
          some (btreeInsert m full_version
            ⟨full_version, cand, [], [], some variant⟩)
        else
          some m
      | none => some m
    else
      none
  else
    none

/-- The candidate scan of `legacy_kernels`: fold `legacyStep` over the
paths whose file name starts with the namespace. -/
def legacyScan (vendor : Str) (m : List (Str × Kernel)) :
    List Str → Option (List (Str × Kernel))
  | [] => some m
  | cand :: rest =>
    if vendor.isPrefixOf (pathFileName cand) then
      match legacyStep vendor m cand with
      | some m' => legacyScan vendor m' rest
      | none => none
    else
      legacyScan vendor m rest

/-- The companion-file attachment of `legacy_kernels` (kernel.rs lines
140-183): look for `System.map-…`, `cmdline-…`, `config-…` extras and an
`initrd-…` (matched by their exact file name, the single-component
`Path::ends_with`), then sort both lists case-insensitively. -/
def legacyAttach (vendor : Str) (paths : List Str) (version : Str)
    (kernel : Kernel) : Kernel :=
  let variant_str : Str :=
    match kernel.variant with
    | some v => '.' :: v
    | none => []
  let sysmap_file := str "System.map-" ++ version ++ variant_str
  let cmdline_file := str "cmdline-" ++ version ++ variant_str
  let config_file := str "config-" ++ version ++ variant_str
  let initrd_file := str "initrd-" ++ vendor ++
    (match kernel.variant with
     | some v => '.' :: v ++ ['.']
     | none => []) ++ version
  let extras := kernel.extras
    ++ ((paths.find? (fun p => pathFileName p = sysmap_file)).map
        (fun p => AuxilliaryFile.mk p .SystemMap)).toList
    ++ ((paths.find? (fun p => pathFileName p = cmdline_file)).map
        (fun p => AuxilliaryFile.mk p .Cmdline)).toList
    ++ ((paths.find? (fun p => pathFileName p = config_file)).map
        (fun p => AuxilliaryFile.mk p .Config)).toList
  let initrd := kernel.initrd
    ++ ((paths.find? (fun p => pathFileName p = initrd_file)).map
        (fun p => AuxilliaryFile.mk p .InitRD)).toList
  { kernel with initrd := sortAux initrd, extras := sortAux extras }

/-- `Schema::legacy_kernels` (kernel.rs lines 102-185): scan candidates
into a version-keyed `BTreeMap`, attach companions to every entry, and
return the values in key order.  `none` models a panic of `split_at` or
of the `assert!`. -/
def legacy_kernels (vendor : Str) (paths : List Str) :
    Option (List Kernel) :=
  match legacyScan vendor [] paths with
  | some m => some (m.map (fun e => legacyAttach vendor paths e.1 e.2))
  | none => none

/-- `BTreeSet` of the input paths: sorted and duplicate-free. -/
def sortDedup (paths : List Str) : List Str :=
  (List.insertionSort (fun a b : Str => a ≤ b) paths).dedup

/-- `HashMap::insert`: replace any existing binding; iteration order is
unspecified, so the map is kept as an insertion-ordered list with unique
keys. -/
def hmInsert (m : List (Str × Kernel)) (k : Str) (v : Kernel) :
    List (Str × Kernel) :=
  (m.filter (fun e => e.1 ≠ k)) ++ [(k, v)]

/-- `HashMap` lookup. -/
def hmLookup (m : List (Str × Kernel)) (k : Str) : Option Kernel :=
  (m.find? (fun e => e.1 = k)).map (fun e => e.2)

/-- Path components, for the component-wise `Path::starts_with`. -/
def pathComponents (p : Str) : List Str := p.splitOn '/'

/-- The asset classification of `blsforme_kernels` (kernel.rs lines
227-249). -/
def classifyAux (asset : Str) : Option AuxilliaryFile :=
  let filename := pathFileName asset
  if filename = str "System.map" then some ⟨asset, .SystemMap⟩
  else if filename = str "boot.json" then some ⟨asset, .BootJSON⟩
  else if filename = str "config" then some ⟨asset, .Config⟩
  else if (str ".initrd").isSuffixOf filename then some ⟨asset, .InitRD⟩
  else if (str ".cmdline").isSuffixOf filename then some ⟨asset, .Cmdline⟩
  else none

/-- One iteration of the asset walk of `blsforme_kernels` (kernel.rs
lines 221-265): classify and push the asset, then re-sort the initrd and
extras lists case-insensitively (the sorts run every iteration). -/
def attachStep (k : Kernel) (asset : Str) : Kernel :=
  let k :=
    match classifyAux asset with
    | some aux =>
      if aux.kind = AuxilliaryKind.InitRD then
        { k with initrd := k.initrd ++ [aux] }
      else { k with extras := k.extras ++ [aux] }
    | none => k
  { k with initrd := sortAux k.initrd, extras := sortAux k.extras }

/-- The per-kernel asset walk of `blsforme_kernels`. -/
def attachAssets : Kernel → List Str → Kernel
  | k, [] => k
  | k, asset :: rest => attachAssets (attachStep k asset) rest

/-- The `vmlinuz` collection of `blsforme_kernels` (kernel.rs lines
192-208): every path whose last component is `vmlinuz` becomes a fresh
kernel keyed by its parent directory's name. -/
def kmapOf (all_paths : List Str) : List (Str × Kernel) :=
  all_paths.foldl (fun m p =>
    if pathFileName p = str "vmlinuz" then
      if pathParent p = [] then m
      else
        let version := pathFileName (pathParent p)
        hmInsert m version ⟨version, p, [], [], none⟩
    else m) []

/-- `Schema::blsforme_kernels` (kernel.rs lines 188-269): collect the
`vmlinuz` images of the sorted, deduplicated path set into a `HashMap`
keyed by the parent-directory version, attach the versioned assets of
each kernel, and return `into_values()` — whose order is the unspecified
`HashMap` iteration order, here made explicit as the `order` argument (a
permutation of the keys). -/
def blsforme_kernels (paths : List Str) (order : List Str) : List Kernel :=
  let all_paths := sortDedup paths
  let kmap := kmapOf all_paths
  order.filterMap (fun v =>
    (hmLookup kmap v).map (fun kernel =>
      let lepath := pathParent kernel.image
      let assets := all_paths.filter (fun p =>
        ¬ (pathFileName p = str "vmlinuz")
        ∧ (pathComponents lepath).isPrefixOf (pathComponents p)
        ∧ ¬ (pathFileName p = v))
      attachAssets kernel assets))

/-- The `HashMap` key list of `blsforme_kernels` in insertion order. -/
def blsformeKeys (paths : List Str) : List Str :=
  (kmapOf (sortDedup paths)).map Prod.fst

/-- `Schema::discover_system_kernels` (kernel.rs lines 94-99). -/
def discover_system_kernels (s : Schema) (paths : List Str)
    (order : List Str) : Option (List Kernel) :=
  match s with
  | .Legacy vendor => legacy_kernels vendor paths
  | .Blsforme => some (blsforme_kernels paths order)

/-- Kernels in (weakly) increasing version order. -/
def sortedByVersion (ks : List Kernel) : Prop :=
  List.Sorted (fun a b : Kernel => a.version ≤ b.version) ks

/-- Auxiliary files in case-insensitive path order. -/
def auxSorted (l : List AuxilliaryFile) : Prop :=
  List.Sorted (fun x y => auxKey x ≤ auxKey y) l

/-- Modern-schema example paths: two versioned kernel directories. -/
def c5paths : List Str :=
  [str "usr/lib/kernel/6.2/vmlinuz", str "usr/lib/kernel/6.1/vmlinuz"]

/-- A legal `HashMap` iteration order for `c5paths`: a permutation of
the version keys that is not version-sorted. -/
def c5order : List Str := [str "6.2", str "6.1"]

/-- Legacy-schema example paths (the spec's own test vector). -/
def c5legacyPaths : List Str :=
  [str "usr/lib/kernel/com.solus-project.native.6.8.2-25",
   str "usr/lib/kernel/initrd-com.solus-project.native.6.8.2-25",
   str "usr/lib/kernel/cmdline-6.8.2-25.native",
   str "usr/lib/kernel/config-6.8.2-25.native",
   str "usr/lib/kernel/System.map-6.8.2-25.native"]

/-- The legacy discovery output on the example paths. -/
def c5legacyOut : List Kernel :=
  (legacy_kernels (str "com.solus-project") c5legacyPaths).getD []

/-- The first modern kernel produced under the `c5order` iteration. -/
def c5modernK : Kernel :=
  (blsforme_kernels c5paths c5order).headD ⟨[], [], [], [], none⟩

/-- The invariant maintained over the legacy candidate scan: keys are
strictly sorted and each entry's kernel carries its key as version. -/
def mapInv (m : List (Str × Kernel)) : Prop :=
  List.Pairwise (fun a b : Str × Kernel => a.1 < b.1) m
  ∧ ∀ e ∈ m, e.2.version = e.1

end Kern

namespace BootEnv

/-- `Firmware` (blsforme/src/bootenv.rs). -/
inductive Firmware where
  | UEFI
  | BIOS
deriving DecidableEq, Repr

/-- The `blsforme::Error` variants reachable from
`BootEnvironment::new` and its helpers. -/
inductive Error where
  | NoESP
  | NoXBOOTLDR
  | Unsupported
  | IOErr
  | BootLoaderProtocol
deriving DecidableEq, Repr

/-- The I/O environment `BootEnvironment::new` (bootenv.rs lines 52-118)
consults: whether `<vfs>/sys/firmware/efi` exists, whether the
configuration root is an image, the outcomes of the Boot Loader
Interface query and of the GPT scan, the XBOOTLDR scan per ESP device,
and the canonicalised device-to-mountpoint map. -/
structure Env where
  efiExists : Bool
  isImage : Bool
  blsProbe : Except Error Str
  gptProbe : Except Error Str
  xbootProbe : Str → Except Error Str
  mounts : Str → Option Str

/-- `BootEnvironment` (bootenv.rs). -/
structure BootEnvironment where
  xbootldr : Option Str
  esp : Option Str
  firmware : Firmware
  esp_mountpoint : Option Str
  xboot_mountpoint : Option Str

/-- The firmware classification: UEFI exactly when
`<vfs>/sys/firmware/efi` exists. -/
def firmwareOf (env : Env) : Firmware :=
  if env.efiExists then .UEFI else .BIOS

/-- `determine_esp_by_bls` (bootenv.rs lines 121-131): refuse outright
under BIOS, otherwise run the Boot Loader Interface pipeline. -/
def determine_esp_by_bls (firmware : Firmware) (env : Env) :
    Except Error Str :=
  match firmware with
  | .BIOS => .error .Unsupported
  | .UEFI => env.blsProbe

/-- The ESP discovery of `BootEnvironment::new` (bootenv.rs lines
66-74): image mode only scans GPT; otherwise the Boot Loader Interface
is tried first and the GPT scan is the fallback. -/
def espCandidate (env : Env) : Option Str :=
  if env.isImage then env.gptProbe.toOption
  else
    match determine_esp_by_bls (firmwareOf env) env with
    | .ok device => some device
    | .error _ =>
      match env.gptProbe with
      | .ok device => some device
      | .error _ => none

/-- `BootEnvironment::new` (bootenv.rs lines 52-118). -/
def BootEnvironment.new (env : Env) : Except Error BootEnvironment :=
  let firmware := firmwareOf env
  let esp := espCandidate env
  match firmware, esp with
  | .UEFI, none => .error .NoESP
  | _, _ =>
    let esp_mountpoint := esp.bind env.mounts
    match esp with
    | some esp_path =>
      let xbootldr := (env.xbootProbe esp_path).toOption
      let xboot_mountpoint := xbootldr.bind env.mounts
      .ok ⟨xbootldr, esp, firmware, esp_mountpoint, xboot_mountpoint⟩
    | none => .ok ⟨none, esp, firmware, esp_mountpoint, none⟩

end BootEnv

namespace SystemdBoot

/-- The loader stanza path of `Loader::install` (bootloader/
systemd_boot/mod.rs lines 184-188):
`boot_root/loader/entries/<entry-id>.conf` (the case-insensitive joins
reuse on-disk casing; with the canonical lowercase names on disk they
reduce to plain joins). -/
def loader_conf_path (boot_root id : Str) : Str :=
  boot_root ++ str "/loader/entries/" ++ id ++ str ".conf"

/-- `Entry::id` (blsforme/src/entry.rs lines 110-121): schema label,
version, and the optional state id. -/
def entry_id (schema_label : Str) (version : Str) (state_id : Option Str) :
    Str :=
  match state_id with
  | some sid => schema_label ++ str "-" ++ version ++ str "-" ++ sid
  | none => schema_label ++ str "-" ++ version

/-- `Loader::generate_entry` (mod.rs lines 257-287): the rendered loader
stanza. -/
def generate_entry (asset_dir cmdline title vmlinuz : Str)
    (initrd_names : List Str) : Str :=
  let initrd : Str :=
    if initrd_names.isEmpty then str "\n"
    else str "\n" ++
      (initrd_names.map (fun n => str "\ninitrd /" ++ asset_dir ++ str "/" ++ n)).flatten
  str "title " ++ title ++ str "\n"
    ++ str "linux /" ++ asset_dir ++ str "/" ++ vmlinuz ++ initrd ++ str "\n"
    ++ str "options " ++ cmdline ++ str "\n"

/-- The successive contents of a path during `fs::write` (the final step
of `Loader::install`, mod.rs line 251): `fs::write` opens with
truncate-and-create and then writes, so the path holds, in order, its
previous content, the empty file, and each written prefix up to the
complete content. -/
def fs_write_states (old : Option Str) (content : Str) :
    List (Option Str) :=
  [old, some []]
    ++ (List.range (content.length + 1)).map (fun n => some (content.take n))

/-- `Loader::install`'s stanza write, observed at the stanza path: the
path it writes and the sequence of contents the path assumes. -/
def install_write (boot_root id : Str) (old : Option Str)
    (stanza : Str) : Str × List (Option Str) :=
  (loader_conf_path boot_root id, fs_write_states old stanza)

end SystemdBoot

namespace Interface

/-- `interface::Error` (bootloader/systemd_boot/interface.rs). -/
inductive Error where
  | UTF16Decoding
  | IOErr
  | Malformed
  | InvalidPrefix
deriving DecidableEq, Repr

/-- `slice::chunks(2)`: two-byte windows, the final one possibly of
length one. -/
def chunks2 : List Nat → List (List Nat)
  | [] => []
  | [a] => [[a]]
  | a :: b :: rest => [a, b] :: chunks2 rest

/-- `u16::from_le_bytes([c[0], c[1]])`: the indexing `c[1]` panics
(`none`) on a one-byte chunk. -/
def u16le (c : List Nat) : Option Nat :=
  match c with
  | a :: b :: _ => some (a + 256 * b)
  | _ => none

/-- `String::from_utf16` validity: no lone or misordered surrogates. -/
def validUtf16 : List Nat → Bool
  | [] => true
  | [u] => decide (u < 0xD800) || decide (0xDFFF < u)
  | u :: v :: rest =>
    if u < 0xD800 ∨ 0xDFFF < u then validUtf16 (v :: rest)
    else if u ≤ 0xDBFF then
      (decide (0xDC00 ≤ v) && decide (v ≤ 0xDFFF)) && validUtf16 rest
    else false

/-- `BootLoaderInterface::get_ucs2_string` (interface.rs lines 124-132):
read the variable file (`none` content = missing file, an `IO` error),
split into 2-byte chunks, skip the first two chunks (the 4 attribute
bytes), decode each chunk little-endian — a panic (`none` result) when a
trailing odd byte leaves a one-byte chunk — drop the final terminator
unit, and validate UTF-16.  The successfully decoded value is returned
as its code-unit list. -/
def get_ucs2_string (content : Option (List Nat)) :
    Option (Except Error (List Nat)) :=
  match content with
  | none => some (.error .IOErr)
  | some bytes =>
    match ((chunks2 bytes).drop 2).mapM u16le with
    | none => none
    | some raw =>
      let raw := raw.dropLast
      if validUtf16 raw then some (.ok raw) else some (.error .UTF16Decoding)

end Interface

end Blsforme

namespace Blsforme

namespace Superblock

/-- Rewinding is idempotent. -/
theorem rewind_rewind (r : Reader) : r.rewind.rewind = r.rewind := rfl

end Superblock

namespace Topology

/-- A node with a decoded superblock kind but no recorded UUID would
panic the `expect` calls; `localFragment` succeeds whenever the node
invariant holds, and then agrees with the spec-worded fragment. -/
theorem localFragment_eq_spec (probe : Probe) (d : BlockDevice)
    (h : d.kind.isSome → d.uuid.isSome) :
    localFragment probe d = some (specLocalFragment probe d) := by
  cases d with
  | mk kind mountpoint path children uuid guid aux =>
    cases kind with
    | none =>
      simp only [localFragment, specLocalFragment, BlockDevice.kind, BlockDevice.aux,
        BlockDevice.path]
      cases aux <;> simp
    | some k =>
      have huuid : uuid.isSome := by
        exact h (by simp [BlockDevice.kind])
      obtain ⟨u, hu⟩ := Option.isSome_iff_exists.mp huuid
      subst hu
      cases hsub : (mountpoint.bind (lookupMount probe.mounts)).bind
          (fun m => optionValue m.options (str "subvol")) <;>
        cases k <;>
        cases guid <;>
        simp [localFragment, specLocalFragment, BlockDevice.kind, BlockDevice.uuid,
          BlockDevice.guid, BlockDevice.mountpoint, hsub]

/-- `trimEnd` is `List.rdropWhile`. -/
theorem trimEnd_eq_rdropWhile (l : Str) : trimEnd l = List.rdropWhile isWs l := rfl

/-- Removing leading whitespace commutes with having removed trailing
whitespace: a start-trimmed list stays start-trimmed after `trimEnd`. -/
theorem trimStart_trimEnd_of_trimStart (m : Str) (hm : trimStart m = m) :
    trimStart (trimEnd m) = trimEnd m := by
  unfold trimStart at *
  rw [trimEnd_eq_rdropWhile]
  rcases hpre : List.rdropWhile isWs m with - | ⟨a, t⟩
  · simp
  · have hpre' : a :: t <+: m := hpre ▸ List.rdropWhile_prefix isWs m
    obtain ⟨r, hr⟩ := hpre'
    subst hr
    rw [List.dropWhile_eq_self_iff] at hm
    have ha : ¬ isWs a := by
      have h0 : 0 < (a :: t ++ r).length := by simp
      simpa using hm h0
    simp [List.dropWhile_cons_of_neg ha]

/-- Rust's `str::trim` is idempotent. -/
theorem rustTrim_idem (l : Str) : rustTrim (rustTrim l) = rustTrim l := by
  unfold rustTrim
  rw [trimStart_trimEnd_of_trimStart (trimStart l) (List.dropWhile_idempotent _ _)]
  rw [trimEnd_eq_rdropWhile, trimEnd_eq_rdropWhile, List.rdropWhile_idempotent]

/-- The node-level invariant extracted from `goodDev`. -/
theorem goodDev_node {kind mountpoint path children uuid guid aux}
    (h : goodDev (.mk kind mountpoint path children uuid guid aux) = true) :
    ((!kind.isSome || uuid.isSome) = true ∧ goodDevList children = true) := by
  simpa [goodDev, Bool.and_eq_true] using h

/-- On trees satisfying the kind-implies-uuid invariant, the code's
`cmd_line` never panics and returns exactly the spec-worded command
line. -/
theorem cmdLine_eq_spec (probe : Probe) :
    ∀ d : BlockDevice, goodDev d = true →
      cmd_line probe d = some (specCmdLine probe d) := by
  intro d
  induction d using BlockDevice.rec
    (motive_2 := fun cs => goodDevList cs = true →
      cmd_line_children probe cs = some (specCmdLineList probe cs)) with
  | mk kind mountpoint path children uuid guid aux ih =>
    intro h
    obtain ⟨hnode, hch⟩ := goodDev_node h
    have hinv : (BlockDevice.mk kind mountpoint path children uuid guid aux).kind.isSome →
        (BlockDevice.mk kind mountpoint path children uuid guid aux).uuid.isSome := by
      intro hk
      simp only [BlockDevice.kind] at hk
      simp only [BlockDevice.uuid]
      rcases Bool.or_eq_true_iff.mp hnode with h' | h'
      · rw [hk] at h'; simp at h'
      · exact h'
    have hl := localFragment_eq_spec probe (.mk kind mountpoint path children uuid guid aux) hinv
    have hc := ih hch
    simp only [cmd_line, specCmdLine, hc, hl, Option.bind_eq_bind, Option.some_bind]
  | nil =>
    simp [cmd_line_children, specCmdLineList]
  | cons c cs ihc ihcs =>
    rename_i h
    have h' : goodDev c = true ∧ goodDevList cs = true := by
      simpa [goodDevList, Bool.and_eq_true] using h
    simp [cmd_line_children, specCmdLineList, ihc h'.1, ihcs h'.2]

/-- `goodDevList` is `goodDev` on every member. -/
theorem goodDevList_iff (l : List BlockDevice) :
    goodDevList l = true ↔ ∀ c ∈ l, goodDev c = true := by
  induction l with
  | nil => simp [goodDevList]
  | cons c cs ih => simp [goodDevList, Bool.and_eq_true, ih]

/-- Every device built by `BlockDevice::new` is childless and satisfies
the kind-implies-uuid invariant. -/
theorem new_goodDev (sbRes : Except TopoError SbHandle) (path : Str)
    (mount : Option Str) (aux : Bool) (d : BlockDevice)
    (h : BlockDevice.new sbRes path mount aux = .ok d) :
    goodDev d = true ∧ d.children = [] := by
  match sbRes with
  | .ok sb =>
    match hsb : sb.uuid with
    | .ok u =>
      simp only [BlockDevice.new, hsb] at h
      cases h
      simp [goodDev, goodDevList, BlockDevice.children]
    | .error e =>
      simp [BlockDevice.new, hsb] at h
  | .error e =>
    simp only [BlockDevice.new] at h
    cases h
    simp [goodDev, goodDevList, BlockDevice.children]

/-- Rebuild `goodDev` from its two conjuncts. -/
theorem goodDev_build {kind : Option Superblock.Kind} {mountpoint : Option Str}
    {path : Str} {children : List BlockDevice} {uuid guid : Option Str} {aux : Bool}
    (h1 : (!kind.isSome || uuid.isSome) = true) (h2 : goodDevList children = true) :
    goodDev (.mk kind mountpoint path children uuid guid aux) = true := by
  cases kind <;> simp_all [goodDev]

/-- The tree assembled by `get_rootfs_device` satisfies the
kind-implies-uuid invariant everywhere. -/
theorem get_rootfs_goodDev (sbOf : Str → Except TopoError SbHandle)
    (guid : Option Str) (device : Str) (chain : List Str) (path : Str)
    (d : BlockDevice)
    (h : get_rootfs_device sbOf guid device chain path = .ok d) :
    goodDev d = true := by
  simp only [get_rootfs_device] at h
  set tip := (device :: chain).getLast (by simp) with htip
  cases hnew : BlockDevice.new (sbOf tip) tip none true with
  | error e => rw [hnew] at h; cases h
  | ok block =>
    rw [hnew] at h
    obtain ⟨hgood, hchild⟩ := new_goodDev _ _ _ _ _ hnew
    cases block with
    | mk kind mountpoint bpath bchildren uuid bguid aux =>
      simp only at h
      cases h
      obtain ⟨hnode, -⟩ := goodDev_node hgood
      refine goodDev_build hnode ?_
      rw [goodDevList_iff]
      intro c hc
      simp only [List.mem_filterMap] at hc
      obtain ⟨cpath, -, hcons⟩ := hc
      by_cases hcd : cpath = device
      · simp only [if_pos hcd, Except.toOption] at hcons
        cases hne : BlockDevice.new (sbOf cpath) cpath (some path) false with
        | ok cdev =>
          rw [hne] at hcons
          simp at hcons
          cases hcons
          exact (new_goodDev _ _ _ _ _ hne).1
        | error e => rw [hne] at hcons; cases hcons
      · simp only [if_neg hcd, Except.toOption] at hcons
        cases hne : BlockDevice.new (sbOf cpath) cpath none true with
        | ok cdev =>
          rw [hne] at hcons
          simp at hcons
          cases hcons
          exact (new_goodDev _ _ _ _ _ hne).1
        | error e => rw [hne] at hcons; cases hcons

/-- C1: on every tree satisfying the kind-implies-uuid invariant,
`cmd_line` produces for each node exactly the local fragment prescribed
by the claim (btrfs `root=UUID=<uuid>` with ` rootfsflags=subvol=<S>`
exactly when the mount table entry for the node's mountpoint carries a
`subvol=<S>` option; luks2 `rd.luks.uuid=<uuid>`; other known kinds
`root=PARTUUID=<gpt_guid>`, else `root=UUID=<uuid>`, else empty; unknown
kinds `root=<device-path>` unless aux), with the children's command
lines concatenated after the local fragment in child order. -/
theorem C1_cmd_line_fragments (probe : Probe) (d : BlockDevice)
    (h : goodDev d = true) :
    cmd_line probe d = some (specCmdLine probe d) :=
  cmdLine_eq_spec probe d h

/-- Witness for C1 at a concrete btrfs-over-LUKS2 tree with a `subvol`
mount option. -/
theorem C1_cmd_line_fragments_witness :
    goodDev btrfsDev = true ∧
      cmd_line btrfsProbe btrfsDev = some (specCmdLine btrfsProbe btrfsDev) ∧
      specCmdLine btrfsProbe btrfsDev =
        str "root=UUID=2a78a4da rootfsflags=subvol=/@ rd.luks.uuid=aaaa-bbbb" :=
  ⟨by decide, C1_cmd_line_fragments btrfsProbe btrfsDev (by decide), by decide⟩

/-- C8 (amended): the string returned by `cmd_line()` has no leading or
trailing whitespace (it is a fixed point of `trim`); the original
claim's further guarantee — never two consecutive whitespace characters
— fails when a child contributes an empty fragment, see the
counterexample. -/
theorem C8_cmd_line_trimmed (probe : Probe) (d : BlockDevice) (s : Str)
    (h : cmd_line probe d = some s) : rustTrim s = s := by
  cases d with
  | mk kind mountpoint path children uuid guid aux =>
    simp only [cmd_line, Option.bind_eq_bind, Option.bind_eq_some] at h
    obtain ⟨cs, -, h2⟩ := h
    obtain ⟨l, -, h3⟩ := h2
    cases h3
    exact rustTrim_idem _

/-- Witness for C8 (amended) at a concrete tree. -/
theorem C8_cmd_line_trimmed_witness :
    cmd_line emptyProbe c8Dev = some (str "root=dev  root=y") ∧
      rustTrim (str "root=dev  root=y") = str "root=dev  root=y" :=
  ⟨by decide, C8_cmd_line_trimmed emptyProbe c8Dev _ (by decide)⟩

/-- Counterexample to C8 as stated: when the first child contributes an
empty fragment, the `join(" ")` of the children plus the
`format!("{} {}", …)` glue leaves two consecutive spaces, which `trim`
does not remove. -/
theorem C8_counterexample :
    cmd_line emptyProbe c8Dev = some (str "root=dev  root=y") ∧
      hasDoubleWs (str "root=dev  root=y") = true := by
  exact ⟨by decide, by decide⟩

/-- C10: every tree built by `get_rootfs_device` (whose nodes all come
from `BlockDevice::new`) satisfies the kind-implies-uuid invariant, so
the `expect` unwraps in the btrfs and luks2 branches of `cmd_line` are
unreachable and `cmd_line` cannot panic on such trees. -/
theorem C10_rootfs_tree_invariant (sbOf : Str → Except TopoError SbHandle)
    (guid : Option Str) (device : Str) (chain : List Str) (path : Str)
    (probe : Probe) (d : BlockDevice)
    (h : get_rootfs_device sbOf guid device chain path = .ok d) :
    goodDev d = true ∧ (cmd_line probe d).isSome = true := by
  have hg := get_rootfs_goodDev sbOf guid device chain path d h
  refine ⟨hg, ?_⟩
  rw [cmdLine_eq_spec probe d hg]
  rfl

/-- Witness for C10: a two-device chain where the mountpoint device
decodes as btrfs (with a UUID) and the tip fails superblock decoding. -/
theorem C10_rootfs_tree_invariant_witness :
    get_rootfs_device
        (fun p => if p = str "/dev/sda2"
          then .ok { kind := .Btrfs, uuid := .ok (str "2a78a4da") }
          else .error .IOErr)
        (some (str "6ca59a0c")) (str "/dev/sda2") [str "/dev/sda"] (str "/")
      = .ok (.mk none none (str "/dev/sda")
          [.mk (some .Btrfs) (some (str "/")) (str "/dev/sda2") []
            (some (str "2a78a4da")) none false]
          none (some (str "6ca59a0c")) true) ∧
    goodDev (.mk none none (str "/dev/sda")
          [.mk (some .Btrfs) (some (str "/")) (str "/dev/sda2") []
            (some (str "2a78a4da")) none false]
          none (some (str "6ca59a0c")) true) = true ∧
    (cmd_line emptyProbe (.mk none none (str "/dev/sda")
          [.mk (some .Btrfs) (some (str "/")) (str "/dev/sda2") []
            (some (str "2a78a4da")) none false]
          none (some (str "6ca59a0c")) true)).isSome = true := by
  have h : get_rootfs_device
      (fun p => if p = str "/dev/sda2"
        then .ok { kind := .Btrfs, uuid := .ok (str "2a78a4da") }
        else .error .IOErr)
      (some (str "6ca59a0c")) (str "/dev/sda2") [str "/dev/sda"] (str "/")
    = .ok (.mk none none (str "/dev/sda")
        [.mk (some .Btrfs) (some (str "/")) (str "/dev/sda2") []
          (some (str "2a78a4da")) none false]
        none (some (str "6ca59a0c")) true) := by rfl
  have h2 := C10_rootfs_tree_invariant _ _ _ _ _ emptyProbe _ h
  exact ⟨h, h2.1, h2.2⟩

end Topology

namespace Superblock

/-- Extracting a field of a struct window equals extracting it from the
underlying buffer at the shifted offset. -/
theorem bytesAt_nested (l : List Nat) (a s b n : Nat) (h : b + n ≤ s) :
    bytesAt ((l.drop a).take s) b n = bytesAt l (a + b) n := by
  unfold bytesAt
  rw [List.drop_take, List.drop_drop, List.take_take]
  rw [Nat.min_eq_left (by omega)]

/-- `firstOk` errors exactly when every attempt failed, and then with
`UnknownSuperblock`. -/
theorem firstOk_error (l : List (Except Error AnySuperblock)) (e : Error) :
    firstOk l = .error e ↔ (e = .UnknownSuperblock ∧ ∀ a ∈ l, a.isOk = false) := by
  induction l with
  | nil =>
    simp only [firstOk]
    constructor
    · intro h; cases h; simp
    · rintro ⟨h, -⟩; rw [h]
  | cons x rest ih =>
    cases x with
    | ok sb => simp [firstOk, Except.isOk, Except.toBool]
    | error e' =>
      simp only [firstOk, ih, List.mem_cons]
      constructor
      · rintro ⟨h1, h2⟩
        refine ⟨h1, ?_⟩
        rintro a (rfl | ha)
        · rfl
        · exact h2 a ha
      · rintro ⟨h1, h2⟩
        exact ⟨h1, fun a ha => h2 a (Or.inr ha)⟩

/-- The cascade of `for_reader` agrees with the ordered first-success
dispatch. -/
theorem for_reader_eq_spec (r : Reader) : for_reader r = for_reader_spec r := by
  cases h1 : Ext4.from_reader r.rewind with
  | ok p =>
    obtain ⟨b, rr⟩ := p
    simp [for_reader, for_reader_spec, attempts, firstOk, h1]
  | error e1 =>
    cases h2 : Btrfs.from_reader r.rewind with
    | ok p =>
      obtain ⟨b, rr⟩ := p
      simp [for_reader, for_reader_spec, attempts, firstOk, h1, h2, rewind_rewind]
    | error e2 =>
      cases h3 : F2FS.from_reader r.rewind with
      | ok p =>
        obtain ⟨b, rr⟩ := p
        simp [for_reader, for_reader_spec, attempts, firstOk, h1, h2, h3, rewind_rewind]
      | error e3 =>
        cases h4 : XFS.from_reader r.rewind with
        | ok p =>
          obtain ⟨b, rr⟩ := p
          simp [for_reader, for_reader_spec, attempts, firstOk, h1, h2, h3, h4,
            rewind_rewind]
        | error e4 =>
          cases h5 : Luks2.from_reader r.rewind with
          | ok p =>
            obtain ⟨b, rr⟩ := p
            simp [for_reader, for_reader_spec, attempts, firstOk, h1, h2, h3, h4, h5,
              rewind_rewind]
          | error e5 =>
            simp [for_reader, for_reader_spec, attempts, firstOk, h1, h2, h3, h4, h5,
              rewind_rewind]

/-- C2: `for_reader` rewinds the source before each attempt and tries
Ext4, Btrfs, F2FS, XFS, LUKS2 in exactly that order, returning the first
successful decode; it errors (with `UnknownSuperblock`) only when every
reader has failed; and each per-filesystem reader answers
`InvalidMagic` on a magic mismatch at its probe offset. -/
theorem C2_for_reader_dispatch (r : Reader) :
    for_reader r = for_reader_spec r
    ∧ (∀ e, for_reader r = .error e →
        e = .UnknownSuperblock ∧ ∀ a ∈ attempts r, a.isOk = false)
    ∧ (1026 ≤ r.data.length → leNat (bytesAt r.data 1024 2) ≠ ext4Magic →
        Ext4.from_reader r.rewind = .error .InvalidMagic)
    ∧ (65640 ≤ r.data.length → leNat (bytesAt r.data 65600 8) ≠ btrfsMagic →
        Btrfs.from_reader r.rewind = .error .InvalidMagic)
    ∧ (4096 ≤ r.data.length → leNat (bytesAt r.data 1024 4) ≠ f2fsMagic →
        F2FS.from_reader r.rewind = .error .InvalidMagic)
    ∧ (4 ≤ r.data.length → bytesAt r.data 0 4 ≠ xfsMagic →
        XFS.from_reader r.rewind = .error .InvalidMagic)
    ∧ (4096 ≤ r.data.length → bytesAt r.data 0 6 ≠ luks2Magic1 →
        bytesAt r.data 0 6 ≠ luks2Magic2 →
        Luks2.from_reader r.rewind = .error .InvalidMagic) := by
  refine ⟨for_reader_eq_spec r, ?_, ?_, ?_, ?_, ?_, ?_⟩
  · intro e he
    rw [for_reader_eq_spec r, for_reader_spec, firstOk_error] at he
    exact ⟨he.1, fun a ha => he.2 a ha⟩
  · intro hlen hmag
    have h1 : min (0 + 1024) r.data.length = 1024 := by omega
    have h2 : 1024 + 2 ≤ r.data.length := by omega
    simp only [Ext4.from_reader, Reader.rewind, Reader.skip, Reader.read_exact, h1,
      if_pos h2, bind, Except.bind]
    have h3 : bytesAt ((r.data.drop 1024).take 2) 0 2 = bytesAt r.data 1024 2 :=
      bytesAt_nested r.data 1024 2 0 2 (by omega)
    simp [h3, hmag]
  · intro hlen hmag
    have h1 : min (0 + btrfsStart) r.data.length = btrfsStart := by
      simp only [btrfsStart]; omega
    have h2 : btrfsStart + 104 ≤ r.data.length := by simp only [btrfsStart]; omega
    simp only [Btrfs.from_reader, Reader.rewind, Reader.skip, Reader.read_exact, h1,
      if_pos h2, bind, Except.bind]
    have h3 : bytesAt ((r.data.drop btrfsStart).take 104) 64 8
        = bytesAt r.data 65600 8 := by
      rw [bytesAt_nested r.data btrfsStart 104 64 8 (by omega)]
      norm_num [btrfsStart]
    simp [h3, hmag]
  · intro hlen hmag
    have h1 : min (0 + f2fsStart) r.data.length = f2fsStart := by
      simp only [f2fsStart]; omega
    have h2 : f2fsStart + f2fsSize ≤ r.data.length := by
      simp only [f2fsStart, f2fsSize]; omega
    simp only [F2FS.from_reader, Reader.rewind, Reader.skip, Reader.read_exact, h1,
      if_pos h2, bind, Except.bind]
    have h3 : bytesAt ((r.data.drop f2fsStart).take f2fsSize) 0 4
        = bytesAt r.data 1024 4 := by
      rw [bytesAt_nested r.data f2fsStart f2fsSize 0 4 (by simp [f2fsSize])]
      norm_num [f2fsStart]
    simp [h3, hmag]
  · intro hlen hmag
    have h2 : 0 + 4 ≤ r.data.length := by omega
    simp only [XFS.from_reader, Reader.rewind, Reader.read_exact, if_pos h2, bind,
      Except.bind]
    have h3 : bytesAt ((r.data.drop 0).take 4) 0 4 = bytesAt r.data 0 4 :=
      bytesAt_nested r.data 0 4 0 4 (by omega)
    simp only [List.drop_zero] at h3
    simp [h3, hmag]
  · intro hlen hmag1 hmag2
    have h2 : 0 + luks2Size ≤ r.data.length := by simp only [luks2Size]; omega
    simp only [Luks2.from_reader, Reader.rewind, Reader.read_exact, if_pos h2, bind,
      Except.bind]
    have h3 : bytesAt ((r.data.drop 0).take luks2Size) 0 6 = bytesAt r.data 0 6 :=
      bytesAt_nested r.data 0 luks2Size 0 6 (by simp [luks2Size])
    simp only [List.drop_zero] at h3
    simp [h3, hmag1, hmag2]

/-- Witness for C2: the dispatch equation at the empty source (all five
readers fail, `UnknownSuperblock` results) and the `InvalidMagic`
answers of the five readers on all-zero buffers of adequate size. -/
theorem C2_for_reader_dispatch_witness :
    for_reader ⟨[], 0⟩ = for_reader_spec ⟨[], 0⟩
    ∧ for_reader ⟨[], 0⟩ = .error .UnknownSuperblock
    ∧ Ext4.from_reader (Reader.mk (List.replicate 1026 0) 0).rewind
        = .error .InvalidMagic
    ∧ Btrfs.from_reader (Reader.mk (List.replicate 65640 0) 0).rewind
        = .error .InvalidMagic
    ∧ F2FS.from_reader (Reader.mk (List.replicate 4096 0) 0).rewind
        = .error .InvalidMagic
    ∧ XFS.from_reader (Reader.mk [0, 0, 0, 0] 0).rewind
        = .error .InvalidMagic
    ∧ Luks2.from_reader (Reader.mk (List.replicate 4096 0) 0).rewind
        = .error .InvalidMagic := by
  refine ⟨(C2_for_reader_dispatch ⟨[], 0⟩).1, rfl, ?_, ?_, ?_, ?_, ?_⟩
  · exact (C2_for_reader_dispatch _).2.2.1
      (by rw [List.length_replicate])
      (by rw [bytesAt, List.drop_replicate, List.take_replicate]; norm_num; decide)
  · exact (C2_for_reader_dispatch _).2.2.2.1
      (by rw [List.length_replicate])
      (by rw [bytesAt, List.drop_replicate, List.take_replicate]; norm_num; decide)
  · exact (C2_for_reader_dispatch _).2.2.2.2.1
      (by rw [List.length_replicate])
      (by rw [bytesAt, List.drop_replicate, List.take_replicate]; norm_num; decide)
  · exact (C2_for_reader_dispatch _).2.2.2.2.2.1 (by decide) (by decide)
  · exact (C2_for_reader_dispatch _).2.2.2.2.2.2
      (by rw [List.length_replicate])
      (by rw [bytesAt, List.drop_replicate, List.take_replicate]; norm_num; decide)
      (by rw [bytesAt, List.drop_replicate, List.take_replicate]; norm_num; decide)

end Superblock

namespace FileUtils

/-- Reading an updated filesystem at a different path. -/
theorem fsSet_ne (fs : FS) (p q : Str) (v : Option FileData) (h : q ≠ p) :
    fsSet fs p v q = fs q := by
  simp [fsSet, h]

/-- Reading an updated filesystem at the updated path. -/
theorem fsSet_self (fs : FS) (p : Str) (v : Option FileData) :
    fsSet fs p v p = v := by
  simp [fsSet]

/-- Pointwise: the pair-keeping predicate of `changed_files` is the
negation of the claim's identical-files characterisation. -/
theorem changed_pred_eq (hash : List Nat → List Nat) (fs : FS) (a b : Str) :
    (match files_identical hash fs a b with
      | .ok true => false
      | _ => true)
      = !(identicalSpec hash fs a b) := by
  unfold files_identical identicalSpec
  cases hfa : fs a with
  | none => simp
  | some fa =>
    cases hfb : fs b with
    | none => simp
    | some fb =>
      by_cases h1 : fa.content.length = fb.content.length <;>
        by_cases h2 : fa.ftype = fb.ftype <;>
        by_cases h3 : hash fa.content = hash fb.content <;>
        simp [h1, h2, h3]

/-- C4: `changed_files` returns exactly the pairs that are not
identical in the claim's sense (both present, equal size and file type,
equal digests); a missing destination always keeps the pair. -/
theorem C4_changed_files (hash : List Nat → List Nat) (fs : FS)
    (files : List (Str × Str)) :
    changed_files hash fs files
      = files.filter (fun p => !(identicalSpec hash fs p.1 p.2))
    ∧ ∀ p ∈ files, fs p.2 = none → p ∈ changed_files hash fs files := by
  have hpt : changed_files hash fs files
      = files.filter (fun p => !(identicalSpec hash fs p.1 p.2)) := by
    unfold changed_files
    apply List.filter_congr
    intro p _
    exact changed_pred_eq hash fs p.1 p.2
  refine ⟨hpt, ?_⟩
  intro p hp hnone
  rw [hpt, List.mem_filter]
  refine ⟨hp, ?_⟩
  unfold identicalSpec
  cases fs p.1 <;> simp [hnone]

/-- Witness for C4: a three-pair set (identical, differing content,
missing destination) where exactly the latter two are returned. -/
theorem C4_changed_files_witness :
    changed_files (fun c => c)
        (fun p =>
          if p = str "a" then some ⟨.file, [1, 2]⟩
          else if p = str "b" then some ⟨.file, [1, 2]⟩
          else if p = str "c" then some ⟨.file, [9, 9]⟩
          else none)
        [(str "a", str "b"), (str "a", str "c"), (str "a", str "d")]
      = [(str "a", str "c"), (str "a", str "d")]
    ∧ (str "a", str "d") ∈ changed_files (fun c => c)
        (fun p =>
          if p = str "a" then some ⟨.file, [1, 2]⟩
          else if p = str "b" then some ⟨.file, [1, 2]⟩
          else if p = str "c" then some ⟨.file, [9, 9]⟩
          else none)
        [(str "a", str "b"), (str "a", str "c"), (str "a", str "d")] := by
  constructor
  · rw [(C4_changed_files (fun c => c) _ _).1]
    decide
  · exact (C4_changed_files (fun c => c) _ _).2 (str "a", str "d") (by decide)
      (by decide)

/-- Counterexample to C3 as stated: `with_extension` replaces the
destination's extension instead of appending, so for
`EFI/boot/kernel.img` the staging file is `EFI/boot/kernel..TmpWrite`,
not `EFI/boot/kernel.img.TmpWrite`. -/
theorem C3_counterexample :
    (copy_atomic_vfat c3fs (str "src") (str "EFI/boot/kernel.img")).map
        Prod.snd
      = .ok [FsOp.open_trunc (str "EFI/boot/kernel..TmpWrite"),
             FsOp.copy (str "src") (str "EFI/boot/kernel..TmpWrite"),
             FsOp.syncfs,
             FsOp.rename (str "EFI/boot/kernel..TmpWrite") (str "EFI/boot/kernel.img"),
             FsOp.syncfs]
    ∧ str "EFI/boot/kernel..TmpWrite" ≠ str "EFI/boot/kernel.img" ++ str ".TmpWrite" :=
  ⟨rfl, by decide⟩

/-- C3 (amended): `copy_atomic_vfat(src,dst)` stages its write in
`dst.with_extension(".TmpWrite")` — the destination path with its final
extension replaced, not `<dst>.TmpWrite` — and performs exactly the
sequence: ensure the parent directory exists; open the temp truncating;
copy the source contents; `syncfs`; if `dst` previously existed, unlink
it and `syncfs` again; rename the temp onto `dst`; `syncfs` once more.
On success the file at `dst` holds the source's bytes and no temp file
remains. -/
theorem C3_copy_atomic_vfat_steps (fs : FS) (source dest : Str)
    (fsrc : FileData)
    (hsrc : fs source = some fsrc)
    (h1 : source ≠ tmpWritePath dest)
    (h2 : dest ≠ tmpWritePath dest)
    (h3 : source ≠ pathParent dest) :
    (copy_atomic_vfat fs source dest).map Prod.snd
        = .ok (specVfatOps fs source dest)
    ∧ ∀ fs' ops, copy_atomic_vfat fs source dest = .ok (fs', ops) →
        fs' dest = some ⟨.file, fsrc.content⟩
        ∧ fs' (tmpWritePath dest) = none := by
  constructor
  · by_cases hdir : (fs (pathParent dest)).isSome <;>
      by_cases hdst : (fs dest).isSome <;>
      simp [copy_atomic_vfat, specVfatOps, hdir, hdst, fsSet, hsrc,
        h1, h2, h3, Ne.symm h1, Ne.symm h2, Ne.symm h3, Except.map, pure,
        Except.pure, bind, Except.bind]
  · intro fs' ops h
    by_cases hdir : (fs (pathParent dest)).isSome <;>
      by_cases hdst : (fs dest).isSome <;>
      simp [copy_atomic_vfat, fsSet, hsrc, h1, h2, h3, Ne.symm h1, Ne.symm h2,
        Ne.symm h3, hdir, hdst, pure, Except.pure, bind, Except.bind] at h <;>
      obtain ⟨hf, -⟩ := h <;>
      subst hf <;>
      simp [fsSet, Ne.symm h2, h2, hsrc, Ne.symm h1]

/-- Witness for C3 (amended) at the concrete example filesystem. -/
theorem C3_copy_atomic_vfat_steps_witness :
    c3fs (str "src") = some ⟨.file, [1, 2]⟩
    ∧ str "src" ≠ tmpWritePath (str "EFI/boot/kernel.img")
    ∧ str "EFI/boot/kernel.img" ≠ tmpWritePath (str "EFI/boot/kernel.img")
    ∧ str "src" ≠ pathParent (str "EFI/boot/kernel.img")
    ∧ (copy_atomic_vfat c3fs (str "src") (str "EFI/boot/kernel.img")).map
          Prod.snd
        = .ok (specVfatOps c3fs (str "src") (str "EFI/boot/kernel.img")) :=
  ⟨by decide, by decide, by decide, by decide,
    (C3_copy_atomic_vfat_steps c3fs (str "src") (str "EFI/boot/kernel.img")
      ⟨.file, [1, 2]⟩ (by decide) (by decide) (by decide) (by decide)).1⟩

end FileUtils

namespace Kern

open FileUtils (pathFileName pathParent)

/-- Members of a `HashMap` after insertion. -/
theorem hmInsert_mem (m : List (Str × Kernel)) (k : Str) (v : Kernel) :
    ∀ e ∈ hmInsert m k v, e ∈ m ∨ e = (k, v) := by
  intro e he
  rcases List.mem_append.mp he with h | h
  · exact Or.inl (List.mem_of_mem_filter h)
  · simp only [List.mem_singleton] at h
    exact Or.inr h

/-- Every kernel stored by the vmlinuz collection has empty auxiliary
lists. -/
theorem kmapOf_fresh (all_paths : List Str) :
    ∀ e ∈ kmapOf all_paths, e.2.initrd = [] ∧ e.2.extras = [] := by
  unfold kmapOf
  suffices h : ∀ (ps : List Str) (m : List (Str × Kernel)),
      (∀ e ∈ m, e.2.initrd = [] ∧ e.2.extras = []) →
      ∀ e ∈ ps.foldl (fun m p =>
        if pathFileName p = str "vmlinuz" then
          if pathParent p = [] then m
          else
            let version := pathFileName (pathParent p)
            hmInsert m version ⟨version, p, [], [], none⟩
        else m) m, e.2.initrd = [] ∧ e.2.extras = [] by
    exact h all_paths [] (fun e he => by simp at he)
  intro ps
  induction ps with
  | nil =>
    intro m hm
    simpa only [List.foldl_nil] using hm
  | cons p rest ih =>
    intro m hm
    simp only [List.foldl_cons]
    apply ih
    intro e he
    split_ifs at he with h1 h2
    · exact hm e he
    · rcases hmInsert_mem _ _ _ e he with h | rfl
      · exact hm e h
      · exact ⟨rfl, rfl⟩
    · exact hm e he

/-- `sortAux` sorts. -/
theorem sortAux_sorted (l : List AuxilliaryFile) : auxSorted (sortAux l) := by
  haveI : IsTotal AuxilliaryFile (fun x y => auxKey x ≤ auxKey y) :=
    ⟨fun a b => le_total (auxKey a) (auxKey b)⟩
  haveI : IsTrans AuxilliaryFile (fun x y => auxKey x ≤ auxKey y) :=
    ⟨fun a b c => le_trans⟩
  exact List.sorted_insertionSort _ l

/-- Each asset-walk iteration leaves both auxiliary lists sorted. -/
theorem attachStep_sorted (k : Kernel) (a : Str) :
    auxSorted (attachStep k a).initrd ∧ auxSorted (attachStep k a).extras := by
  unfold attachStep
  exact ⟨sortAux_sorted _, sortAux_sorted _⟩

/-- After the asset walk both auxiliary lists are sorted (provided they
started sorted, as the empty lists of a fresh kernel are). -/
theorem attachAssets_sorted (assets : List Str) : ∀ k : Kernel,
    auxSorted k.initrd → auxSorted k.extras →
    auxSorted (attachAssets k assets).initrd
    ∧ auxSorted (attachAssets k assets).extras := by
  induction assets with
  | nil => exact fun k h1 h2 => ⟨h1, h2⟩
  | cons a rest ih =>
    intro k h1 h2
    have hs := attachStep_sorted k a
    exact ih (attachStep k a) hs.1 hs.2

/-- `legacyAttach` sorts both auxiliary lists. -/
theorem legacyAttach_sorted (vendor : Str) (paths : List Str)
    (version : Str) (kernel : Kernel) :
    auxSorted (legacyAttach vendor paths version kernel).initrd
    ∧ auxSorted (legacyAttach vendor paths version kernel).extras := by
  unfold legacyAttach
  exact ⟨sortAux_sorted _, sortAux_sorted _⟩

/-- `legacyAttach` does not change the version. -/
theorem legacyAttach_version (vendor : Str) (paths : List Str)
    (version : Str) (kernel : Kernel) :
    (legacyAttach vendor paths version kernel).version = kernel.version := by
  unfold legacyAttach
  rfl

/-- Members of a `BTreeMap` after insertion. -/
theorem btreeInsert_mem (m : List (Str × Kernel)) (k : Str) (v : Kernel) :
    ∀ e ∈ btreeInsert m k v, e = (k, v) ∨ e ∈ m := by
  induction m with
  | nil => simp [btreeInsert]
  | cons hd rest ih =>
    obtain ⟨k', v'⟩ := hd
    simp only [btreeInsert]
    split_ifs with h1 h2
    · intro e he
      rcases List.mem_cons.mp he with rfl | he'
      · exact Or.inl rfl
      · exact Or.inr he'
    · intro e he
      rcases List.mem_cons.mp he with rfl | he'
      · exact Or.inl rfl
      · exact Or.inr (List.mem_cons_of_mem _ he')
    · intro e he
      rcases List.mem_cons.mp he with rfl | he'
      · exact Or.inr (List.mem_cons_self _ _)
      · rcases ih e he' with h | h
        · exact Or.inl h
        · exact Or.inr (List.mem_cons_of_mem _ h)

/-- `BTreeMap` insertion preserves strict key sorting. -/
theorem btreeInsert_sorted (m : List (Str × Kernel)) (k : Str) (v : Kernel)
    (h : List.Pairwise (fun a b : Str × Kernel => a.1 < b.1) m) :
    List.Pairwise (fun a b : Str × Kernel => a.1 < b.1) (btreeInsert m k v) := by
  induction m with
  | nil => simp [btreeInsert]
  | cons hd rest ih =>
    obtain ⟨k', v'⟩ := hd
    obtain ⟨hhd, hrest⟩ := List.pairwise_cons.mp h
    simp only [btreeInsert]
    split_ifs with h1 h2
    · refine List.Pairwise.cons ?_ h
      intro e he
      rcases List.mem_cons.mp he with rfl | he'
      · exact h1
      · exact lt_trans h1 (hhd e he')
    · refine List.Pairwise.cons ?_ hrest
      intro e he
      rw [h2]
      exact hhd e he
    · have hk : k' < k := by
        rcases lt_trichotomy k k' with h | h | h
        · exact absurd h h1
        · exact absurd h h2
        · exact h
      refine List.Pairwise.cons ?_ (ih hrest)
      intro e he
      rcases btreeInsert_mem rest k v e he with rfl | h'
      · exact hk
      · exact hhd e h'

/-- One legacy candidate step preserves the invariant. -/
theorem legacyStep_inv (vendor : Str) (m : List (Str × Kernel))
    (cand : Str) (m' : List (Str × Kernel)) (hm : mapInv m)
    (h : legacyStep vendor m cand = some m') : mapInv m' := by
  simp only [legacyStep] at h
  split_ifs at h with h1 h2
  · rcases hsp : splitOnce '.' ((pathFileName cand).drop (vendor.length + 1))
        with - | ⟨variant, full_version⟩
    · rw [hsp] at h
      cases h
      exact hm
    · rw [hsp] at h
      simp only [] at h
      by_cases hdash : full_version.contains '-'
      · rw [if_pos hdash] at h
        cases h
        refine ⟨btreeInsert_sorted m full_version _ hm.1, ?_⟩
        intro e he
        rcases btreeInsert_mem m full_version _ e he with rfl | h'
        · rfl
        · exact hm.2 e h'
      · rw [if_neg hdash] at h
        cases h
        exact hm

/-- The legacy candidate scan preserves the invariant. -/
theorem legacyScan_inv (vendor : Str) :
    ∀ (paths : List Str) (m m' : List (Str × Kernel)), mapInv m →
      legacyScan vendor m paths = some m' → mapInv m' := by
  intro paths
  induction paths with
  | nil =>
    intro m m' hm h
    simp only [legacyScan] at h
    cases h
    exact hm
  | cons cand rest ih =>
    intro m m' hm h
    simp only [legacyScan] at h
    split_ifs at h with hpref
    · rcases hstep : legacyStep vendor m cand with - | m''
      · rw [hstep] at h
        cases h
      · rw [hstep] at h
        exact ih m'' m' (legacyStep_inv vendor m cand m'' hm hstep) h
    · exact ih m m' hm h

/-- C5 (amended): legacy discovery returns kernels sorted by version
(the `BTreeMap` key order), and in both schemas every returned kernel's
initrd and extras lists are sorted case-insensitively by path; modern
(`Blsforme`) discovery, however, returns the kernels in the unspecified
`HashMap` iteration order rather than sorted by version (see the
counterexample). -/
theorem C5_discover_sorting :
    (∀ (vendor : Str) (paths : List Str) (ks : List Kernel),
      discover_system_kernels (.Legacy vendor) paths [] = some ks →
        sortedByVersion ks
        ∧ ∀ k ∈ ks, auxSorted k.initrd ∧ auxSorted k.extras)
    ∧ (∀ (paths order : List Str) (ks : List Kernel),
      discover_system_kernels .Blsforme paths order = some ks →
        ∀ k ∈ ks, auxSorted k.initrd ∧ auxSorted k.extras) := by
  constructor
  · intro vendor paths ks h
    simp only [discover_system_kernels, legacy_kernels] at h
    rcases hscan : legacyScan vendor [] paths with - | m
    · rw [hscan] at h
      cases h
    · rw [hscan] at h
      cases h
      have hinv : mapInv m :=
        legacyScan_inv vendor paths [] m ⟨List.Pairwise.nil, by simp⟩ hscan
      constructor
      · unfold sortedByVersion
        rw [List.Sorted, List.pairwise_map]
        refine hinv.1.imp_of_mem ?_
        intro a b ha hb hab
        rw [legacyAttach_version, legacyAttach_version, hinv.2 a ha, hinv.2 b hb]
        exact le_of_lt hab
      · intro k hk
        rw [List.mem_map] at hk
        obtain ⟨e, -, rfl⟩ := hk
        exact legacyAttach_sorted vendor paths e.1 e.2
  · intro paths order ks h
    simp only [discover_system_kernels] at h
    cases h
    intro k hk
    simp only [blsforme_kernels, List.mem_filterMap] at hk
    obtain ⟨v, -, hv⟩ := hk
    rcases hl : hmLookup _ v with - | kernel
    · rw [hl] at hv
      cases hv
    · rw [hl] at hv
      simp only [Option.map_some'] at hv
      cases hv
      have hmem : ∃ e ∈ kmapOf (sortDedup paths), e.2 = kernel := by
        unfold hmLookup at hl
        rcases hfind : (kmapOf (sortDedup paths)).find? (fun e => e.1 = v)
            with - | e
        · rw [hfind] at hl
          cases hl
        · rw [hfind] at hl
          simp only [Option.map_some'] at hl
          cases hl
          exact ⟨e, List.mem_of_find?_eq_some hfind, rfl⟩
      obtain ⟨e, hemem, he⟩ := hmem
      have hfresh := kmapOf_fresh (sortDedup paths) e hemem
      rw [he] at hfresh
      exact attachAssets_sorted _ _
        (by rw [hfresh.1]; exact List.sorted_nil)
        (by rw [hfresh.2]; exact List.sorted_nil)

/-- Counterexample to C5 as stated: under the modern schema the kernels
come back in `HashMap` iteration order; `c5order` is a permutation of
the key set, yet the output versions are `6.2, 6.1` — not sorted. -/
theorem C5_counterexample :
    (blsformeKeys c5paths).Perm c5order
    ∧ discover_system_kernels .Blsforme c5paths c5order
        = some (blsforme_kernels c5paths c5order)
    ∧ (blsforme_kernels c5paths c5order).map Kernel.version
        = [str "6.2", str "6.1"]
    ∧ ¬ sortedByVersion (blsforme_kernels c5paths c5order) := by
  refine ⟨by decide, rfl, by decide, ?_⟩
  unfold sortedByVersion List.Sorted
  decide

end Kern

namespace BootEnv

/-- C6: `BootEnvironment::new` fails — and then with `NoESP` — exactly
when the firmware is UEFI (i.e. `<vfs>/sys/firmware/efi` exists) and no
ESP device was discovered (by the Boot Loader Interface or the GPT
scan); under BIOS it always succeeds, with `esp` possibly unset. -/
theorem C6_bootenv_noesp (env : Env) :
    (BootEnvironment.new env = .error .NoESP ↔
      (env.efiExists = true ∧ espCandidate env = none))
    ∧ (∀ e, BootEnvironment.new env = .error e → e = .NoESP)
    ∧ (env.efiExists = false →
        ∃ be, BootEnvironment.new env = .ok be
          ∧ be.firmware = .BIOS ∧ be.esp = espCandidate env)
    ∧ (firmwareOf env = .UEFI ↔ env.efiExists = true) := by
  have hfw : firmwareOf env = if env.efiExists then .UEFI else .BIOS := rfl
  refine ⟨?_, ?_, ?_, ?_⟩
  · constructor
    · intro h
      unfold BootEnvironment.new at h
      rcases hesp : espCandidate env with - | device <;>
        rcases hfi : env.efiExists <;>
        simp only [firmwareOf, hfi, hesp, if_true, if_false] at h <;>
        first
        | exact ⟨rfl, rfl⟩
        | cases h
    · rintro ⟨h1, h2⟩
      unfold BootEnvironment.new
      simp [firmwareOf, h1, h2]
  · intro e h
    unfold BootEnvironment.new at h
    rcases hesp : espCandidate env with - | device <;>
      rcases hfi : env.efiExists <;>
      simp only [firmwareOf, hfi, hesp, if_true, if_false] at h <;>
      first
      | (cases h; rfl)
      | cases h
  · intro h
    unfold BootEnvironment.new
    rcases hesp : espCandidate env with - | device <;>
      simp [firmwareOf, h, hesp]
  · rcases h : env.efiExists <;> simp [firmwareOf, h]

/-- Witness for C6: a BIOS environment succeeds with no ESP; a UEFI
environment with failing probes yields `NoESP`. -/
theorem C6_bootenv_noesp_witness :
    (BootEnvironment.new
        ⟨false, false, .error .Unsupported, .error .Unsupported,
          fun _ => .error .NoXBOOTLDR, fun _ => none⟩).isOk = true
    ∧ BootEnvironment.new
        ⟨true, false, .error .BootLoaderProtocol, .error .NoESP,
          fun _ => .error .NoXBOOTLDR, fun _ => none⟩
        = .error .NoESP := by
  constructor
  · obtain ⟨be, hbe, -, -⟩ :=
      (C6_bootenv_noesp
        ⟨false, false, .error .Unsupported, .error .Unsupported,
          fun _ => .error .NoXBOOTLDR, fun _ => none⟩).2.2.1 rfl
    rw [hbe]
    rfl
  · exact (C6_bootenv_noesp
      ⟨true, false, .error .BootLoaderProtocol, .error .NoESP,
        fun _ => .error .NoXBOOTLDR, fun _ => none⟩).1.mpr ⟨rfl, rfl⟩

end BootEnv

namespace SystemdBoot

/-- Counterexample to C7 as stated: during the stanza write the path
holds the empty file — neither the previous content nor the complete new
stanza — because `fs::write` truncates in place instead of staging and
renaming. -/
theorem C7_counterexample :
    some ([] : Str) ∈
      (install_write (str "/efi") (str "serpentos-6.8.2")
        (some (str "options old\n"))
        (generate_entry (str "EFI/serpentos") (str "rw") (str "Serpent OS")
          (str "vmlinuz") [])).2
    ∧ some ([] : Str) ≠ some (str "options old\n")
    ∧ some ([] : Str) ≠
      some (generate_entry (str "EFI/serpentos") (str "rw") (str "Serpent OS")
        (str "vmlinuz") []) := by
  refine ⟨?_, by decide, by decide⟩
  simp [install_write, fs_write_states]

/-- C7 (amended): `install` writes the stanza at
`boot_root/loader/entries/<entry.id>.conf` with a plain truncating
`fs::write`, which is not atomic: an interrupted install can leave the
stanza path empty or holding a proper prefix of the new stanza; every
intermediate state is the previous content, or a prefix of the new
stanza; a completed install leaves exactly the rendered stanza. -/
theorem C7_stanza_write (boot_root id : Str) (old : Option Str)
    (stanza : Str) :
    (install_write boot_root id old stanza).1
      = loader_conf_path boot_root id
    ∧ ((install_write boot_root id old stanza).2).getLast? = some (some stanza)
    ∧ ∀ s ∈ (install_write boot_root id old stanza).2,
        s = old ∨ ∃ n, s = some (stanza.take n) := by
  refine ⟨rfl, ?_, ?_⟩
  · show (fs_write_states old stanza).getLast? = some (some stanza)
    unfold fs_write_states
    rw [List.range_succ, List.map_append]
    rw [← List.append_assoc]
    rw [List.getLast?_append]
    simp
  · intro s hs
    unfold install_write fs_write_states at hs
    simp only [List.mem_append, List.mem_cons, List.mem_map,
      List.mem_range, List.not_mem_nil, or_false] at hs
    rcases hs with (rfl | rfl) | ⟨n, -, rfl⟩
    · exact Or.inl rfl
    · exact Or.inr ⟨0, by simp⟩
    · exact Or.inr ⟨n, rfl⟩

/-- Witness for C7 (amended): one visible state of the concrete write is
a strict prefix of the stanza. -/
theorem C7_stanza_write_witness :
    some (str "title Serp") ∈
      (install_write (str "/efi") (str "serpentos-6.8.2") none
        (generate_entry (str "EFI/serpentos") (str "rw") (str "Serpent OS")
          (str "vmlinuz") [])).2
    ∧ (some (str "title Serp") = (none : Option Str)
        ∨ ∃ n, some (str "title Serp") =
          some ((generate_entry (str "EFI/serpentos") (str "rw")
            (str "Serpent OS") (str "vmlinuz") []).take n)) := by
  constructor
  · simp [install_write, fs_write_states]
    decide
  · exact (C7_stanza_write (str "/efi") (str "serpentos-6.8.2") none
      (generate_entry (str "EFI/serpentos") (str "rw") (str "Serpent OS")
        (str "vmlinuz") [])).2.2
      (some (str "title Serp"))
      (by simp [install_write, fs_write_states]; decide)

end SystemdBoot

namespace Interface

/-- C9 is a code bug: the claim (and the error taxonomy, whose
`Malformed` variant is never constructed) says malformed efivars content
yields an `Error`, but a variable file with an odd byte count of five or
more panics at the `c[1]` index of the final one-byte chunk.  On
well-formed content the decoder skips the 4 attribute bytes, reads
UCS-2LE units and drops the trailing terminator as claimed; on a missing
file it errors; on the five-zero-byte file it panics. -/
theorem C9_get_ucs2_string :
    get_ucs2_string (some [0, 0, 0, 0, 0]) = none
    ∧ get_ucs2_string none = some (.error .IOErr)
    ∧ get_ucs2_string
        (some [7, 0, 0, 0, 0x73, 0x00, 0x64, 0x00, 0x00, 0x00])
        = some (.ok [0x73, 0x64])
    ∧ get_ucs2_string (some [0, 0, 0]) = some (.ok []) := by
  refine ⟨rfl, rfl, rfl, rfl⟩

end Interface

namespace Kern

/-- Witness for C5 (amended): the legacy example yields a sorted kernel
list, and the first modern kernel has sorted auxiliary lists. -/
theorem C5_discover_sorting_witness :
    discover_system_kernels (.Legacy (str "com.solus-project")) c5legacyPaths []
        = some c5legacyOut
    ∧ sortedByVersion c5legacyOut
    ∧ c5modernK ∈ blsforme_kernels c5paths c5order
    ∧ auxSorted c5modernK.initrd ∧ auxSorted c5modernK.extras := by
  have h1 : discover_system_kernels (.Legacy (str "com.solus-project"))
      c5legacyPaths [] = some c5legacyOut := by decide
  have h2 : discover_system_kernels .Blsforme c5paths c5order
      = some (blsforme_kernels c5paths c5order) := rfl
  have hm : c5modernK ∈ blsforme_kernels c5paths c5order := by decide
  have hc := (C5_discover_sorting.1 (str "com.solus-project") c5legacyPaths
      c5legacyOut h1).1
  have hd := C5_discover_sorting.2 c5paths c5order _ h2 c5modernK hm
  exact ⟨h1, hc, hm, hd.1, hd.2⟩

end Kern

end Blsforme
